import Mathlib

/-!
Verification of the MuseScore part-list adapter
(`src/notation/view/partlistmodel.cpp`) against its specification.

The adapter (`PartListModel`) owns an ordered list of shared handles to
host-side score objects (the master and its excerpt parts), a selection
model over row indices, and a pending-current pointer.  We embed it as a
state machine over `AdapterState`:

* host-side score objects live in a heap, modelled as an association list
  from handle ids (standing for pointer identity) to `NotationData`;
  shared mutation of an object is an update of its heap cell;
* `rows` is the adapter's ordered list of handle ids (`m_notations`);
* `selection` is the set of selected row indices (`m_selectionModel`,
  which Qt keeps aligned with the model across row insertion/removal);
* `current` is the pending-current handle (`m_currentNotation`);
* `events` records the change notifications emitted so far;
* `nextId` is an allocation counter: the host factory and `clone()`
  return fresh objects, modelled as ids drawn from the counter.

Index-taking operations take `Int` arguments, so that the C++ bounds
check `index >= 0 && index < m_notations.size()` is modelled exactly,
including negative indices.
-/

/-- Number of voices per part (`VOICES` constant of the engraving core). -/
def VOICES : Nat := 4

/-- Host-side state of one score object, as consumed by the adapter:
title metadata, per-voice visibility flags, the opened flag and whether
the object is excerpt-typed (`IExcerptNotation`) rather than the master. -/
structure NotationData where
  title : String
  voices : List Bool
  opened : Bool
  isExcerpt : Bool
deriving DecidableEq, Repr

/-- Host-side `parts()->voiceVisible(i)` for one object. -/
def voiceVisible (d : NotationData) (i : Nat) : Bool :=
  d.voices.getD i false

/-- `PartListModel::voicesVisibility`: the vector of `VOICES` visibility
flags queried from the object (the non-null case; a null handle yields
the empty list in the source and never occurs in rows). -/
def voicesVisibility (d : NotationData) : List Bool :=
  (List.range VOICES).map (fun i => voiceVisible d i)

/-- The ascending list of 1-based voice-number strings of visible voices,
as built by the loop in `PartListModel::formatVoicesTitle`. -/
def voiceNumbers (vv : List Bool) : List String :=
  vv.enum.filterMap (fun p => if p.2 then some (toString (p.1 + 1)) else none)

/-- `PartListModel::formatVoicesTitle`, applied to the visibility vector:
"None" when no voice number was collected, "All" when every index was
collected, otherwise the ", "-joined voice numbers. -/
def formatVoicesTitle (vv : List Bool) : String :=
  let voices := voiceNumbers vv
  if voices.isEmpty then "None"
  else if voices.length = vv.length then "All"
  else String.intercalate ", " voices

/-- Spec-side description of the joined string: the comma-joined,
ascending, 1-based indices of the true entries of the vector. -/
def specVoiceNumbers (vv : List Bool) : List String :=
  ((List.range vv.length).filter (fun i => vv.getD i false)).map
    (fun i => toString (i + 1))

example : formatVoicesTitle [false, true, false, true] = "2, 4" := by decide
example : formatVoicesTitle [false, false, false, false] = "None" := by decide
example : formatVoicesTitle [true, true, true, true] = "All" := by decide
example : voicesVisibility ⟨"x", [false, true], true, true⟩ = [false, true, false, false] := by decide

/-- Host context as seen by the adapter: the master's handle id and the
ids of its stored excerpts, in stored order (`currentMasterNotation()`
and its `excerpts()`). -/
structure Host where
  masterId : Nat
  excerptIds : List Nat
deriving DecidableEq, Repr

/-- Change notifications the adapter emits towards the display surface:
full model reset, row inserted, row removed, single row changed, and the
selection-changed signal forwarded from the selection model. -/
inductive ModelEvent where
  | resetModel : ModelEvent
  | rowsInserted : Nat → ModelEvent
  | rowsRemoved : Nat → ModelEvent
  | dataChanged : Nat → ModelEvent
  | selectionChanged : ModelEvent
deriving DecidableEq, Repr

/-- State of the adapter together with the host-side heap of score
objects it holds handles into. -/
structure AdapterState where
  heap : List (Nat × NotationData)
  rows : List Nat
  selection : Finset Nat
  current : Option Nat
  events : List ModelEvent
  nextId : Nat
deriving DecidableEq

/-- Dereference a handle: the object stored under id `nid` (pointer
identity is id equality; `find?` takes the first, i.e. live, cell). -/
def heapGet (h : List (Nat × NotationData)) (nid : Nat) : Option NotationData :=
  (h.find? (fun p => p.1 == nid)).map Prod.snd

/-- Mutate the object under id `nid` in place (visible through every
handle sharing the id). -/
def heapModify (h : List (Nat × NotationData)) (nid : Nat) (f : NotationData → NotationData) :
    List (Nat × NotationData) :=
  h.map (fun p => if p.1 == nid then (p.1, f p.2) else p)

/-- `PartListModel::isNotationIndexValid`:
`index >= 0 && index < m_notations.size()`. -/
def isNotationIndexValid (s : AdapterState) (i : Int) : Bool :=
  decide (0 ≤ i ∧ i < (s.rows.length : Int))

/-- Modelled from the spec: `isVoiceIndexValid` (declared in the header,
not in the visible sources) checks the voice index against the number of
supported voices, the same shape of bounds check as for row indices. -/
def isVoiceIndexValid (v : Int) : Bool :=
  decide (0 ≤ v ∧ v < (VOICES : Int))

/-- Initial adapter state over a pre-existing host heap: empty sequence,
empty selection, unset pending-current, no notifications yet. -/
def initState (heap0 : List (Nat × NotationData)) (fresh : Nat) : AdapterState :=
  { heap := heap0, rows := [], selection := ∅, current := none,
    events := [], nextId := fresh }

/-- `PartListModel::load`: inside a model reset, appends the master to
`m_notations` and then every stored excerpt in order.  The source never
clears `m_notations` first.  The model reset clears the attached
selection model. -/
def load (host : Host) (s : AdapterState) : AdapterState :=
  { s with
    rows := s.rows ++ host.masterId :: host.excerptIds,
    selection := ∅,
    events := s.events ++ [ModelEvent.resetModel] }

/-- Row-data query, `RoleTitle`: the object's title (`none` on an
invalid index, where the source returns an empty `QVariant`). -/
def rowTitle (s : AdapterState) (i : Nat) : Option String :=
  (s.rows.get? i).bind (fun nid => (heapGet s.heap nid).map (fun d => d.title))

/-- Row-data query, `RoleIsMain`: whether the row's handle is the host's
master (`notation == masterNotation()`). -/
def rowIsMain (host : Host) (s : AdapterState) (i : Nat) : Option Bool :=
  (s.rows.get? i).map (fun nid => nid == host.masterId)

/-- Row-data query, `RoleVoicesTitle`. -/
def rowVoicesTitle (s : AdapterState) (i : Nat) : Option String :=
  (s.rows.get? i).bind
    (fun nid => (heapGet s.heap nid).map (fun d => formatVoicesTitle (voicesVisibility d)))

/-- Row-data query, `RoleIsSelected`. -/
def rowIsSelected (s : AdapterState) (i : Nat) : Option Bool :=
  (s.rows.get? i).map (fun _ => decide (i ∈ s.selection))

/-- `PartListModel::insertNotation`: inserts the handle at the given
position inside a row-insertion notification.  Qt shifts the selected
indices at or above the insertion point up by one. -/
def insertNotationRow (s : AdapterState) (idx : Nat) (nid : Nat) : AdapterState :=
  { s with
    rows := s.rows.insertIdx idx nid,
    selection := s.selection.image (fun j => if idx ≤ j then j + 1 else j),
    events := s.events ++ [ModelEvent.rowsInserted idx] }

/-- Voice flags of a freshly created excerpt (host-side default: every
voice visible). -/
def defaultVoices : List Bool := List.replicate VOICES true

/-- `PartListModel::createNewPart`: allocates a fresh excerpt through the
host factory, titles it "Part", marks it opened, appends it at the end of
the sequence and makes it pending-current. -/
def createNewPart (s : AdapterState) : AdapterState :=
  let nid := s.nextId
  let d : NotationData := { title := "Part", voices := defaultVoices,
                            opened := true, isExcerpt := true }
  let s1 : AdapterState := { s with heap := (nid, d) :: s.heap, nextId := s.nextId + 1 }
  let s2 := insertNotationRow s1 s1.rows.length nid
  { s2 with current := some nid }

/-- `PartListModel::selectPart`: bounds-checked toggle of the row's
selection membership; emits the forwarded selection-changed signal and a
single-row data change. -/
def selectPart (s : AdapterState) (partIndex : Int) : AdapterState :=
  if isNotationIndexValid s partIndex then
    let i := partIndex.toNat
    let sel := if i ∈ s.selection then s.selection.erase i else insert i s.selection
    { s with selection := sel,
             events := s.events ++ [ModelEvent.selectionChanged, ModelEvent.dataChanged i] }
  else s

/-- `PartListModel::removePart`: bounds-checked removal of one row.  The
removed handle's object is marked not opened, the row is erased inside a
row-removal notification, and Qt drops the removed index from the
selection while shifting higher selected indices down. -/
def removePart (s : AdapterState) (partIndex : Int) : AdapterState :=
  if isNotationIndexValid s partIndex then
    let i := partIndex.toNat
    let nid := s.rows.getD i 0
    { s with
      heap := heapModify s.heap nid (fun d => { d with opened := false }),
      rows := s.rows.eraseIdx i,
      selection := (s.selection.filter (fun j => j < i)) ∪
        ((s.selection.filter (fun j => i < j)).image (fun j => j - 1)),
      events := s.events ++ [ModelEvent.rowsRemoved i] ++
        (if i ∈ s.selection then [ModelEvent.selectionChanged] else []) }
  else s

/-- `PartListModel::setPartTitle`: bounds-checked; returns untouched when
the new title equals the current one, otherwise rewrites the object's
metadata and emits a single-row data change. -/
def setPartTitle (s : AdapterState) (partIndex : Int) (title : String) : AdapterState :=
  if isNotationIndexValid s partIndex then
    let i := partIndex.toNat
    let nid := s.rows.getD i 0
    match heapGet s.heap nid with
    | none => s
    | some d =>
      if d.title = title then s
      else { s with
        heap := heapModify s.heap nid (fun d0 => { d0 with title := title }),
        events := s.events ++ [ModelEvent.dataChanged i] }
  else s

/-- `PartListModel::setVoiceVisible`: bounds-checked on both indices;
returns untouched when the flag already has the requested value,
otherwise mutates the object's voice flag and emits a single-row data
change. -/
def setVoiceVisible (s : AdapterState) (partIndex : Int) (voiceIndex : Int) (visible : Bool) :
    AdapterState :=
  if isNotationIndexValid s partIndex && isVoiceIndexValid voiceIndex then
    let i := partIndex.toNat
    let v := voiceIndex.toNat
    let nid := s.rows.getD i 0
    match heapGet s.heap nid with
    | none => s
    | some d =>
      if voiceVisible d v == visible then s
      else { s with
        heap := heapModify s.heap nid (fun d0 => { d0 with voices := d0.voices.set v visible }),
        events := s.events ++ [ModelEvent.dataChanged i] }
  else s

/-- `PartListModel::copyPart`: bounds-checked; clones the object at the
index (the clone is a fresh, independent object), appends " (copy)" to
the clone's title and inserts the clone immediately after the source. -/
def copyPart (s : AdapterState) (partIndex : Int) : AdapterState :=
  if isNotationIndexValid s partIndex then
    let i := partIndex.toNat
    let srcId := s.rows.getD i 0
    match heapGet s.heap srcId with
    | none => s
    | some d =>
      let nid := s.nextId
      let s1 : AdapterState := { s with
        heap := (nid, { d with title := d.title ++ " (copy)" }) :: s.heap,
        nextId := s.nextId + 1 }
      insertNotationRow s1 (i + 1) nid
  else s

/-- `QItemSelectionModel::clear`, as invoked by the adapter: empties the
selection, emitting a selection-changed signal when it was non-empty. -/
def clearSelection (s : AdapterState) : AdapterState :=
  { s with selection := ∅,
           events := s.events ++
             (if s.selection = ∅ then [] else [ModelEvent.selectionChanged]) }

/-- `PartListModel::selectedRows`: the currently selected row indices (the
iteration order of `selectedIndexes()` is unspecified; modelled as
ascending; the selection model only ever references rows of the model). -/
def selectedRows (s : AdapterState) : List Nat :=
  (List.range s.rows.length).filter (fun r => decide (r ∈ s.selection))

/-- `PartListModel::removeSelectedParts`: snapshots the handles of the
selected rows, then removes each by re-resolving its current index with
`indexOf` (first occurrence; `-1`, i.e. an invalid index, when absent)
and calling `removePart`; finally clears the selection. -/
def removeSelectedParts (s : AdapterState) : AdapterState :=
  let rowsSel := selectedRows s
  if rowsSel.isEmpty then s
  else
    let toRemove := rowsSel.map (fun r => s.rows.getD r 0)
    let s1 := toRemove.foldl
      (fun st nid => removePart st (Int.ofNat (st.rows.indexOf nid))) s
    clearSelection s1

/-- `PartListModel::openSelectedParts`: marks every selected handle's
object opened and makes the last selected row's handle pending-current. -/
def openSelectedParts (s : AdapterState) : AdapterState :=
  let rowsSel := selectedRows s
  if rowsSel.isEmpty then s
  else
    let s1 : AdapterState := { s with
      heap := rowsSel.foldl
        (fun h r => heapModify h (s.rows.getD r 0) (fun d => { d with opened := true })) s.heap }
    { s1 with current := some (s.rows.getD (rowsSel.getLastD 0) 0) }

/-- Whether the handle's object is excerpt-typed
(`dynamic_pointer_cast<IExcerptNotation>` succeeding). -/
def isExcerptId (s : AdapterState) (nid : Nat) : Bool :=
  match heapGet s.heap nid with
  | some d => d.isExcerpt
  | none => false

/-- What `PartListModel::apply` pushes to the host: the new excerpt set
(`setExcerpts`) and the new active handle (`setCurrentNotation`). -/
structure HostCommit where
  excerpts : List Nat
  current : Option Nat
deriving DecidableEq, Repr

/-- `PartListModel::apply`: filters the sequence down to its
excerpt-typed entries, in order, and pushes that list plus the
pending-current handle to the host. -/
def apply (s : AdapterState) : HostCommit :=
  { excerpts := s.rows.filter (fun nid => isExcerptId s nid),
    current := s.current }

example :
    (load ⟨0, [1, 2]⟩ (initState [] 7)).rows = [0, 1, 2] := by decide
example :
    (selectPart (load ⟨0, [1]⟩ (initState [] 7)) 1).selection = {1} := by decide

/-- Sample master object for concrete states. -/
def masterData : NotationData :=
  { title := "Untitled", voices := [true, true, true, true], opened := true, isExcerpt := false }

/-- Sample excerpt object for concrete states. -/
def excerptData : NotationData :=
  { title := "Flute", voices := [true, true, true, true], opened := true, isExcerpt := true }

/-- Claim C1, counterexample to the stated example: on visibility vector
[false, true, false, true] the row's voicesTitle is "2, 4" (the 1-based
indices of the true entries are 2 and 4), not "2, 3" as claimed. -/
theorem formatVoicesTitle_example_counterexample :
    formatVoicesTitle
      (voicesVisibility ⟨"Part", [false, true, false, true], true, true⟩) = "2, 4" ∧
    ("2, 4" : String) ≠ "2, 3" := by
  exact ⟨by decide, by decide⟩

/-- Claim C1 (amended): for every row object, the voicesTitle string is
"None" iff every entry of the voices-visibility vector is false, "All"
iff every entry is true, and otherwise the comma-joined ascending
1-based indices of the true entries; in particular on the vector
[false, true, false, true] it is "2, 4". -/
theorem formatVoicesTitle_characterization (d : NotationData) :
    (formatVoicesTitle (voicesVisibility d) = "None" ↔
      ∀ b ∈ voicesVisibility d, b = false) ∧
    (formatVoicesTitle (voicesVisibility d) = "All" ↔
      ∀ b ∈ voicesVisibility d, b = true) ∧
    ((¬ ∀ b ∈ voicesVisibility d, b = false) → (¬ ∀ b ∈ voicesVisibility d, b = true) →
      formatVoicesTitle (voicesVisibility d) =
        String.intercalate ", " (specVoiceNumbers (voicesVisibility d))) := by
  rw [show voicesVisibility d =
    [voiceVisible d 0, voiceVisible d 1, voiceVisible d 2, voiceVisible d 3] from rfl]
  generalize voiceVisible d 0 = b0
  generalize voiceVisible d 1 = b1
  generalize voiceVisible d 2 = b2
  generalize voiceVisible d 3 = b3
  revert b0 b1 b2 b3
  decide

/-- Claim C1 witness: the amended example, obtained from the
characterization at the vector [false, true, false, true]. -/
theorem formatVoicesTitle_characterization_witness :
    formatVoicesTitle
      (voicesVisibility ⟨"Part", [false, true, false, true], true, true⟩) =
      String.intercalate ", "
        (specVoiceNumbers (voicesVisibility ⟨"Part", [false, true, false, true], true, true⟩)) :=
  (formatVoicesTitle_characterization ⟨"Part", [false, true, false, true], true, true⟩).2.2
    (by decide) (by decide)

/-- Claim C2, counterexample: load() never clears `m_notations`, so a
second load() duplicates the master; afterwards row 1 is a master row,
contradicting both "clears the existing sequence" and "isMain is true
only for row 0". -/
theorem load_does_not_clear_counterexample :
    (load ⟨0, []⟩ (load ⟨0, []⟩ (initState [(0, masterData)] 5))).rows = [0, 0] ∧
    rowIsMain ⟨0, []⟩
      (load ⟨0, []⟩ (load ⟨0, []⟩ (initState [(0, masterData)] 5))) 1 = some true := by
  exact ⟨by decide, by decide⟩

/-- Claim C2 (amended): load() appends the master and then the host's
excerpts in stored order, without clearing first; when the sequence was
empty beforehand (as in the initial state) and the master handle is not
among the stored excerpts, row 0 is the master and isMain is true only
for row 0. -/
theorem load_from_empty_master_first (host : Host) (s : AdapterState)
    (hnil : s.rows = []) (hmem : host.masterId ∉ host.excerptIds) :
    (load host s).rows = host.masterId :: host.excerptIds ∧
    rowIsMain host (load host s) 0 = some true ∧
    (∀ i : Nat, 0 < i → i < (load host s).rows.length →
      rowIsMain host (load host s) i = some false) := by
  have h1 : (load host s).rows = host.masterId :: host.excerptIds := by
    simp [load, hnil]
  refine ⟨h1, ?_, ?_⟩
  · simp [rowIsMain, h1]
  · intro i hpos hlen
    obtain ⟨j, rfl⟩ : ∃ j, i = j + 1 := ⟨i - 1, by omega⟩
    rw [h1] at hlen
    have hlen' : j < host.excerptIds.length := by
      simpa [Nat.succ_lt_succ_iff] using hlen
    have hne : host.excerptIds.get ⟨j, hlen'⟩ ≠ host.masterId := by
      intro hEq
      exact hmem (hEq ▸ List.get_mem _ _ _)
    have hget : host.excerptIds[j]? = some (host.excerptIds.get ⟨j, hlen'⟩) := by
      rw [List.getElem?_eq_getElem hlen', List.get_eq_getElem]
    simp only [rowIsMain, h1, List.get?_eq_getElem?]
    simp [hget]
    simpa [List.get_eq_getElem] using hne

/-- Claim C2 witness: the amended statement at a host with master handle
0 and excerpts [1, 2], loaded from the initial state. -/
theorem load_from_empty_master_first_witness :
    (load ⟨0, [1, 2]⟩ (initState [] 9)).rows = 0 :: [1, 2] ∧
    rowIsMain ⟨0, [1, 2]⟩ (load ⟨0, [1, 2]⟩ (initState [] 9)) 0 = some true ∧
    (∀ i : Nat, 0 < i → i < (load ⟨0, [1, 2]⟩ (initState [] 9)).rows.length →
      rowIsMain ⟨0, [1, 2]⟩ (load ⟨0, [1, 2]⟩ (initState [] 9)) i = some false) :=
  load_from_empty_master_first ⟨0, [1, 2]⟩ (initState [] 9) rfl (by decide)

/-- Claim C3, counterexample: from the loaded state over master 0 and
excerpt 1, the reachable call removePart(0) erases row 0 — the master —
so the sequence no longer contains a master at all. -/
theorem removePart_removes_master_counterexample :
    (removePart (load ⟨0, [1]⟩ (initState [(0, masterData), (1, excerptData)] 5)) 0).rows
      = [1] ∧
    (0 : Nat) ∉
      (removePart (load ⟨0, [1]⟩ (initState [(0, masterData), (1, excerptData)] 5)) 0).rows := by
  exact ⟨by decide, by decide⟩

/-- Claim C3 (amended): the master is first in the sequence immediately
after load() from the initial state, but it is not protected from
removal: removePart applies only a bounds check, so removePart(0)
removes the master, which afterwards no longer occurs in the sequence
(when it is not among the stored excerpts). -/
theorem master_first_but_removable (host : Host) (s : AdapterState)
    (hnil : s.rows = []) (hmem : host.masterId ∉ host.excerptIds) :
    (load host s).rows.head? = some host.masterId ∧
    (removePart (load host s) 0).rows = host.excerptIds ∧
    host.masterId ∉ (removePart (load host s) 0).rows := by
  have h1 : (load host s).rows = host.masterId :: host.excerptIds := by
    simp [load, hnil]
  have hvalid : isNotationIndexValid (load host s) 0 = true := by
    simp [isNotationIndexValid, h1]
  have h2 : (removePart (load host s) 0).rows = host.excerptIds := by
    simp [removePart, hvalid, h1]
  exact ⟨by simp [h1], h2, by rw [h2]; exact hmem⟩

/-- selectPart never touches the ordered sequence. -/
theorem selectPart_rows (s : AdapterState) (i : Int) : (selectPart s i).rows = s.rows := by
  unfold selectPart
  split <;> rfl

/-- selectPart never touches the pending-current handle. -/
theorem selectPart_current (s : AdapterState) (i : Int) :
    (selectPart s i).current = s.current := by
  unfold selectPart
  split <;> rfl

/-- Dereferencing a freshly allocated cell yields the fresh object. -/
theorem heapGet_cons_self (h : List (Nat × NotationData)) (nid : Nat) (d : NotationData) :
    heapGet ((nid, d) :: h) nid = some d := by
  simp [heapGet, List.find?]

/-- heapModify unfolded over a leading cell. -/
theorem heapModify_cons (a : Nat) (d : NotationData) (t : List (Nat × NotationData))
    (k : Nat) (f : NotationData → NotationData) :
    heapModify ((a, d) :: t) k f =
      (if a = k then (a, f d) else (a, d)) :: heapModify t k f := by
  by_cases hak : a = k <;> simp [heapModify, hak]

/-- heapGet unfolded over a leading cell. -/
theorem heapGet_cons (a : Nat) (d : NotationData) (t : List (Nat × NotationData)) (nid : Nat) :
    heapGet ((a, d) :: t) nid = if a = nid then some d else heapGet t nid := by
  by_cases h : a = nid <;> simp [heapGet, List.find?_cons, h]

/-- Mutating one object changes only that object's cell, applying the
mutator to it. -/
theorem heapGet_heapModify (h : List (Nat × NotationData)) (k : Nat)
    (f : NotationData → NotationData) (nid : Nat) :
    heapGet (heapModify h k f) nid =
      if nid = k then (heapGet h nid).map f else heapGet h nid := by
  induction h with
  | nil => by_cases hk : nid = k <;> simp [heapGet, heapModify, hk]
  | cons p t ih =>
    obtain ⟨a, d⟩ := p
    rw [heapModify_cons]
    by_cases hak : a = k
    · rw [if_pos hak]
      by_cases han : a = nid
      · have hk : nid = k := by rw [← han, hak]
        simp [heapGet_cons, han, hk]
      · have hk : nid ≠ k := by
          intro hEq
          exact han (by rw [hak, ← hEq])
        simp [heapGet_cons, han, hk, ih]
    · rw [if_neg hak]
      by_cases han : a = nid
      · have hk : nid ≠ k := by
          intro hEq
          exact hak (by rw [han, hEq])
        simp [heapGet_cons, han, hk]
      · simp [heapGet_cons, han, ih]

/-- Claim C3 witness: the amended statement at a host with master handle
0 and one excerpt 1, loaded from the initial state. -/
theorem master_first_but_removable_witness :
    (load ⟨0, [1]⟩ (initState [(0, masterData), (1, excerptData)] 5)).rows.head? = some 0 ∧
    (removePart (load ⟨0, [1]⟩ (initState [(0, masterData), (1, excerptData)] 5)) 0).rows
      = [1] ∧
    (0 : Nat) ∉
      (removePart (load ⟨0, [1]⟩ (initState [(0, masterData), (1, excerptData)] 5)) 0).rows :=
  master_first_but_removable ⟨0, [1]⟩ (initState [(0, masterData), (1, excerptData)] 5)
    rfl (by decide)


/-- Claim C10: for every valid index, toggling selection twice restores
the selection to its value before the first call, and selectPart (at any
index, of any state) never changes the ordered sequence or the
pending-current handle. -/
theorem selectPart_toggle_involution (s : AdapterState) (i : Int)
    (h : isNotationIndexValid s i = true) :
    (selectPart (selectPart s i) i).selection = s.selection ∧
    (∀ j : Int, (selectPart s j).rows = s.rows ∧ (selectPart s j).current = s.current) := by
  refine ⟨?_, fun j => ⟨selectPart_rows s j, selectPart_current s j⟩⟩
  have h' : decide (0 ≤ i ∧ i < (s.rows.length : Int)) = true := by
    simpa [isNotationIndexValid] using h
  by_cases hm : i.toNat ∈ s.selection
  · simp [selectPart, isNotationIndexValid, h', hm, Finset.not_mem_erase,
      Finset.insert_erase hm]
  · simp [selectPart, isNotationIndexValid, h', hm, Finset.mem_insert_self,
      Finset.erase_insert hm]

/-- Claim C10 witness: the toggle involution at the loaded two-row state
and index 1. -/
theorem selectPart_toggle_involution_witness :
    (selectPart (selectPart (load ⟨0, [1]⟩ (initState [] 5)) 1) 1).selection
        = (load ⟨0, [1]⟩ (initState [] 5)).selection ∧
    (∀ j : Int, (selectPart (load ⟨0, [1]⟩ (initState [] 5)) j).rows
          = (load ⟨0, [1]⟩ (initState [] 5)).rows ∧
        (selectPart (load ⟨0, [1]⟩ (initState [] 5)) j).current
          = (load ⟨0, [1]⟩ (initState [] 5)).current) :=
  selectPart_toggle_involution (load ⟨0, [1]⟩ (initState [] 5)) 1 (by decide)

/-- Claim C8: for any index outside [0, rowCount), each of selectPart,
removePart, setPartTitle, setVoiceVisible and copyPart returns the state
unchanged — sequence, selection, pending-current and emitted
notifications included. -/
theorem invalid_index_noop (s : AdapterState) (i : Int) (v : Int) (t : String) (b : Bool)
    (h : ¬ (0 ≤ i ∧ i < (s.rows.length : Int))) :
    selectPart s i = s ∧ removePart s i = s ∧ setPartTitle s i t = s ∧
    setVoiceVisible s i v b = s ∧ copyPart s i = s := by
  have hb : isNotationIndexValid s i = false := by
    simpa [isNotationIndexValid] using h
  refine ⟨?_, ?_, ?_, ?_, ?_⟩ <;>
    simp [selectPart, removePart, setPartTitle, setVoiceVisible, copyPart, hb]

/-- Claim C8 witness: index -1 on the loaded two-row state is a no-op
for all five operations. -/
theorem invalid_index_noop_witness :
    selectPart (load ⟨0, [1]⟩ (initState [(0, masterData), (1, excerptData)] 5)) (-1)
        = load ⟨0, [1]⟩ (initState [(0, masterData), (1, excerptData)] 5) ∧
    removePart (load ⟨0, [1]⟩ (initState [(0, masterData), (1, excerptData)] 5)) (-1)
        = load ⟨0, [1]⟩ (initState [(0, masterData), (1, excerptData)] 5) ∧
    setPartTitle (load ⟨0, [1]⟩ (initState [(0, masterData), (1, excerptData)] 5)) (-1) "x"
        = load ⟨0, [1]⟩ (initState [(0, masterData), (1, excerptData)] 5) ∧
    setVoiceVisible (load ⟨0, [1]⟩ (initState [(0, masterData), (1, excerptData)] 5)) (-1) 0 true
        = load ⟨0, [1]⟩ (initState [(0, masterData), (1, excerptData)] 5) ∧
    copyPart (load ⟨0, [1]⟩ (initState [(0, masterData), (1, excerptData)] 5)) (-1)
        = load ⟨0, [1]⟩ (initState [(0, masterData), (1, excerptData)] 5) :=
  invalid_index_noop (load ⟨0, [1]⟩ (initState [(0, masterData), (1, excerptData)] 5))
    (-1) 0 "x" true (by decide)

/-- Claim C9: setPartTitle with the row's current title, and
setVoiceVisible with the voice's current visibility, leave the whole
state unchanged — in particular they emit no notification. -/
theorem set_same_value_noop (s : AdapterState) (i : Int) (t : String) (v : Int) (b : Bool)
    (hval : isNotationIndexValid s i = true) (hvv : isVoiceIndexValid v = true)
    (d : NotationData) (hd : heapGet s.heap (s.rows.getD i.toNat 0) = some d)
    (ht : d.title = t) (hb : voiceVisible d v.toNat = b) :
    setPartTitle s i t = s ∧ setVoiceVisible s i v b = s := by
  have hd' : heapGet s.heap (s.rows[i.toNat]?.getD 0) = some d := by
    simpa [List.getD_eq_getElem?_getD] using hd
  constructor
  · simp [setPartTitle, hval, hd', ht]
  · simp [setVoiceVisible, hval, hvv, hd', hb]

/-- Claim C9 witness: renaming row 1 to its current title "Flute" and
re-setting voice 0 of row 1 to its current visibility on the loaded
two-row state are both exact no-ops. -/
theorem set_same_value_noop_witness :
    setPartTitle (load ⟨0, [1]⟩ (initState [(0, masterData), (1, excerptData)] 5)) 1 "Flute"
        = load ⟨0, [1]⟩ (initState [(0, masterData), (1, excerptData)] 5) ∧
    setVoiceVisible (load ⟨0, [1]⟩ (initState [(0, masterData), (1, excerptData)] 5)) 1 0 true
        = load ⟨0, [1]⟩ (initState [(0, masterData), (1, excerptData)] 5) :=
  set_same_value_noop (load ⟨0, [1]⟩ (initState [(0, masterData), (1, excerptData)] 5))
    1 "Flute" 0 true (by decide) (by decide) excerptData (by decide) (by decide) (by decide)

/-- Claim C6: createNewPart appends the fresh excerpt at the end (its
row index is the previous row count), the new row is not the master, the
new object is marked opened and excerpt-typed, and it becomes the
pending-current handle. -/
theorem createNewPart_appends (s : AdapterState) (host : Host)
    (hfresh : s.nextId ≠ host.masterId) :
    (createNewPart s).rows = s.rows ++ [s.nextId] ∧
    (createNewPart s).rows.get? s.rows.length = some s.nextId ∧
    rowIsMain host (createNewPart s) s.rows.length = some false ∧
    (heapGet (createNewPart s).heap s.nextId).map (fun d => d.opened) = some true ∧
    (heapGet (createNewPart s).heap s.nextId).map (fun d => d.isExcerpt) = some true ∧
    (createNewPart s).current = some s.nextId := by
  have hrows : (createNewPart s).rows = s.rows ++ [s.nextId] := by
    simp [createNewPart, insertNotationRow, List.insertIdx_length_self]
  have hget : (createNewPart s).rows.get? s.rows.length = some s.nextId := by
    rw [hrows]
    exact List.get?_concat_length s.rows s.nextId
  have hheap : heapGet (createNewPart s).heap s.nextId =
      some { title := "Part", voices := defaultVoices, opened := true, isExcerpt := true } := by
    simp [createNewPart, insertNotationRow, heapGet_cons_self]
  refine ⟨hrows, hget, ?_, by simp [hheap], by simp [hheap], rfl⟩
  unfold rowIsMain
  rw [hget]
  simp [hfresh]

/-- Claim C6 witness: creating a part in the loaded two-row state
appends handle 5 at row 2. -/
theorem createNewPart_appends_witness :
    (createNewPart (load ⟨0, [1]⟩ (initState [(0, masterData), (1, excerptData)] 5))).rows
        = (load ⟨0, [1]⟩ (initState [(0, masterData), (1, excerptData)] 5)).rows ++ [5] ∧
    (createNewPart (load ⟨0, [1]⟩ (initState [(0, masterData), (1, excerptData)] 5))).rows.get?
        (load ⟨0, [1]⟩ (initState [(0, masterData), (1, excerptData)] 5)).rows.length = some 5 ∧
    rowIsMain ⟨0, [1]⟩
        (createNewPart (load ⟨0, [1]⟩ (initState [(0, masterData), (1, excerptData)] 5)))
        (load ⟨0, [1]⟩ (initState [(0, masterData), (1, excerptData)] 5)).rows.length
        = some false ∧
    (heapGet (createNewPart
          (load ⟨0, [1]⟩ (initState [(0, masterData), (1, excerptData)] 5))).heap 5).map
        (fun d => d.opened) = some true ∧
    (heapGet (createNewPart
          (load ⟨0, [1]⟩ (initState [(0, masterData), (1, excerptData)] 5))).heap 5).map
        (fun d => d.isExcerpt) = some true ∧
    (createNewPart (load ⟨0, [1]⟩ (initState [(0, masterData), (1, excerptData)] 5))).current
        = some 5 :=
  createNewPart_appends (load ⟨0, [1]⟩ (initState [(0, masterData), (1, excerptData)] 5))
    ⟨0, [1]⟩ (by decide)

/-- Claim C4: apply() pushes exactly the excerpt-typed entries of the
sequence, as a subsequence (so in sequence order), with multiplicities
preserved; when the master is not excerpt-typed it is excluded; and the
pushed current handle is the pending-current one. -/
theorem apply_pushes_excerpts (s : AdapterState) (host : Host)
    (hm : isExcerptId s host.masterId = false) :
    List.Sublist (apply s).excerpts s.rows ∧
    (∀ nid ∈ (apply s).excerpts, isExcerptId s nid = true) ∧
    (∀ nid : Nat, isExcerptId s nid = true →
      (apply s).excerpts.count nid = s.rows.count nid) ∧
    host.masterId ∉ (apply s).excerpts ∧
    (apply s).current = s.current := by
  refine ⟨List.filter_sublist _, ?_, ?_, ?_, rfl⟩
  · intro nid hmem
    exact (List.mem_filter.mp hmem).2
  · intro nid hex
    exact List.count_filter hex
  · intro hmem
    exact absurd (List.mem_filter.mp hmem).2 (by simp [hm])

/-- Claim C4 witness: in the loaded two-row state (master 0, excerpt 1)
the pushed excerpt set is exactly the excerpt-typed rows and excludes
the master. -/
theorem apply_pushes_excerpts_witness :
    List.Sublist
        (apply (load ⟨0, [1]⟩ (initState [(0, masterData), (1, excerptData)] 5))).excerpts
        (load ⟨0, [1]⟩ (initState [(0, masterData), (1, excerptData)] 5)).rows ∧
    (∀ nid ∈ (apply (load ⟨0, [1]⟩ (initState [(0, masterData), (1, excerptData)] 5))).excerpts,
      isExcerptId (load ⟨0, [1]⟩ (initState [(0, masterData), (1, excerptData)] 5)) nid = true) ∧
    (∀ nid : Nat,
      isExcerptId (load ⟨0, [1]⟩ (initState [(0, masterData), (1, excerptData)] 5)) nid = true →
      (apply (load ⟨0, [1]⟩ (initState [(0, masterData), (1, excerptData)] 5))).excerpts.count nid
        = (load ⟨0, [1]⟩ (initState [(0, masterData), (1, excerptData)] 5)).rows.count nid) ∧
    (0 : Nat) ∉
      (apply (load ⟨0, [1]⟩ (initState [(0, masterData), (1, excerptData)] 5))).excerpts ∧
    (apply (load ⟨0, [1]⟩ (initState [(0, masterData), (1, excerptData)] 5))).current
      = (load ⟨0, [1]⟩ (initState [(0, masterData), (1, excerptData)] 5)).current :=
  apply_pushes_excerpts (load ⟨0, [1]⟩ (initState [(0, masterData), (1, excerptData)] 5))
    ⟨0, [1]⟩ (by decide)

/-- Claim C7: copyPart(i) inserts the fresh clone at position i+1
(immediately after the source), the clone's title is the source title
with " (copy)" appended, and removing the original afterwards leaves
the clone's title unchanged (the clone is an independent object). -/
theorem copyPart_inserts_clone (s : AdapterState) (i : Nat) (hi : i < s.rows.length)
    (d : NotationData) (hd : heapGet s.heap (s.rows.getD i 0) = some d) :
    (copyPart s ((i : Int))).rows = s.rows.insertIdx (i + 1) s.nextId ∧
    (copyPart s ((i : Int))).rows.get? (i + 1) = some s.nextId ∧
    ((heapGet (copyPart s ((i : Int))).heap s.nextId).map (fun x => x.title)
        = some (d.title ++ " (copy)")) ∧
    ((heapGet (removePart (copyPart s ((i : Int))) ((i : Int))).heap s.nextId).map
        (fun x => x.title) = some (d.title ++ " (copy)")) := by
  have hvalid : isNotationIndexValid s ((i : Int)) = true := by
    simp [isNotationIndexValid]
    omega
  have hd' : heapGet s.heap (s.rows[i]?.getD 0) = some d := by
    simpa [List.getD_eq_getElem?_getD] using hd
  have hrows : (copyPart s ((i : Int))).rows = s.rows.insertIdx (i + 1) s.nextId := by
    simp [copyPart, hvalid, hd', insertNotationRow]
  have hheap : (copyPart s ((i : Int))).heap
      = (s.nextId, { d with title := d.title ++ " (copy)" }) :: s.heap := by
    simp [copyPart, hvalid, hd', insertNotationRow]
  have hlen : (s.rows.insertIdx (i + 1) s.nextId).length = s.rows.length + 1 :=
    List.length_insertIdx (i + 1) s.rows (by omega)
  have hget : (copyPart s ((i : Int))).rows.get? (i + 1) = some s.nextId := by
    rw [hrows, List.get?_eq_getElem?, List.getElem?_eq_getElem (by omega)]
    exact congrArg some (List.getElem_insertIdx_self s.rows s.nextId (i + 1) (by omega))
  have hclone : heapGet (copyPart s ((i : Int))).heap s.nextId
      = some { d with title := d.title ++ " (copy)" } := by
    rw [hheap]
    exact heapGet_cons_self _ _ _
  refine ⟨hrows, hget, by simp [hclone], ?_⟩
  have hvalid2 : isNotationIndexValid (copyPart s ((i : Int))) ((i : Int)) = true := by
    simp [isNotationIndexValid, hrows, hlen]
    omega
  simp only [removePart, hvalid2, if_true]
  rw [heapGet_heapModify]
  split <;> simp [hclone]

/-- Claim C7 witness: copying row 1 of the loaded two-row state inserts
clone handle 5 at row 2 with title "Flute (copy)", which survives
removal of the original. -/
theorem copyPart_inserts_clone_witness :
    (copyPart (load ⟨0, [1]⟩ (initState [(0, masterData), (1, excerptData)] 5))
        ((1 : Nat) : Int)).rows
      = (load ⟨0, [1]⟩ (initState [(0, masterData), (1, excerptData)] 5)).rows.insertIdx
          (1 + 1) (load ⟨0, [1]⟩ (initState [(0, masterData), (1, excerptData)] 5)).nextId ∧
    (copyPart (load ⟨0, [1]⟩ (initState [(0, masterData), (1, excerptData)] 5))
        ((1 : Nat) : Int)).rows.get? (1 + 1)
      = some (load ⟨0, [1]⟩ (initState [(0, masterData), (1, excerptData)] 5)).nextId ∧
    ((heapGet (copyPart (load ⟨0, [1]⟩ (initState [(0, masterData), (1, excerptData)] 5))
          ((1 : Nat) : Int)).heap
        (load ⟨0, [1]⟩ (initState [(0, masterData), (1, excerptData)] 5)).nextId).map
        (fun x => x.title) = some (excerptData.title ++ " (copy)")) ∧
    ((heapGet (removePart
          (copyPart (load ⟨0, [1]⟩ (initState [(0, masterData), (1, excerptData)] 5))
            ((1 : Nat) : Int)) ((1 : Nat) : Int)).heap
        (load ⟨0, [1]⟩ (initState [(0, masterData), (1, excerptData)] 5)).nextId).map
        (fun x => x.title) = some (excerptData.title ++ " (copy)")) :=
  copyPart_inserts_clone (load ⟨0, [1]⟩ (initState [(0, masterData), (1, excerptData)] 5))
    1 (by decide) excerptData (by decide)

/-- One step of removeSelectedParts: re-resolving a handle with indexOf
and removing that row erases the handle's first occurrence from the
sequence (and is a no-op when the handle is gone, since indexOf then
yields an invalid index). -/
theorem removePart_indexOf_rows (s : AdapterState) (nid : Nat) :
    (removePart s (Int.ofNat (s.rows.indexOf nid))).rows = s.rows.erase nid := by
  by_cases hmem : nid ∈ s.rows
  · have hlt : s.rows.indexOf nid < s.rows.length := List.indexOf_lt_length.mpr hmem
    have hvalid : isNotationIndexValid s (Int.ofNat (s.rows.indexOf nid)) = true := by
      simp [isNotationIndexValid]
      omega
    unfold removePart
    rw [if_pos hvalid]
    show s.rows.eraseIdx (s.rows.indexOf nid) = s.rows.erase nid
    exact List.eraseIdx_indexOf_eq_erase nid s.rows
  · have hlen : s.rows.indexOf nid = s.rows.length := List.indexOf_eq_length.mpr hmem
    have hvalid : isNotationIndexValid s (Int.ofNat (s.rows.indexOf nid)) = false := by
      simp [isNotationIndexValid, hlen]
    unfold removePart
    rw [if_neg (by rw [hvalid]; simp)]
    rw [List.erase_of_not_mem hmem]

/-- The sequence after the removal loop of removeSelectedParts is the
fold of single-handle erasure over the snapshot list. -/
theorem foldl_remove_rows (hs : List Nat) (s : AdapterState) :
    (hs.foldl (fun st nid => removePart st (Int.ofNat (st.rows.indexOf nid))) s).rows
      = hs.foldl (fun l nid => l.erase nid) s.rows := by
  induction hs generalizing s with
  | nil => rfl
  | cons a t ih =>
    simp only [List.foldl_cons]
    rw [ih, removePart_indexOf_rows]

/-- Erasing a list of handles one by one from a duplicate-free sequence
keeps exactly the entries outside that list, in order. -/
theorem foldl_erase_eq_filter (hs : List Nat) (l : List Nat) (hl : l.Nodup) :
    hs.foldl (fun acc nid => acc.erase nid) l = l.filter (fun v => !(hs.contains v)) := by
  induction hs generalizing l with
  | nil => simp
  | cons a t ih =>
    simp only [List.foldl_cons]
    rw [ih (l.erase a) (hl.erase a), List.Nodup.erase_eq_filter hl, List.filter_filter]
    apply List.filter_congr
    intro v _
    simp only [List.contains_cons, Bool.not_or, bne]
    exact Bool.and_comm _ _

/-- Filtering a sequence by exclusion from a handle list equals
filtering its enumeration by the corresponding index predicate, provided
membership of each entry in the handle list is decided exactly by the
predicate at its index. -/
theorem filter_not_contains_eq_enumFrom (T : List Nat) (P : Nat → Bool) :
    ∀ (n : Nat) (l : List Nat),
      (∀ (k : Nat) (hk : k < l.length), T.contains (l.get ⟨k, hk⟩) = P (n + k)) →
      l.filter (fun v => !(T.contains v))
        = ((l.enumFrom n).filter (fun p => !(P p.1))).map Prod.snd := by
  intro n l
  induction l generalizing n with
  | nil => intro _; rfl
  | cons x t ih =>
    intro hk
    have hx : T.contains x = P n := by
      have h0 := hk 0 (by simp)
      simpa using h0
    have ht : ∀ (k : Nat) (hkk : k < t.length),
        T.contains (t.get ⟨k, hkk⟩) = P ((n + 1) + k) := by
      intro k hkk
      have h2 := hk (k + 1) (by simpa using Nat.succ_lt_succ hkk)
      have h3 : n + (k + 1) = (n + 1) + k := by omega
      rw [h3] at h2
      simpa using h2
    cases hP : P n with
    | false =>
      have e1 : List.filter (fun v => !T.contains v) (x :: t)
          = x :: List.filter (fun v => !T.contains v) t := by
        rw [List.filter_cons]
        have hc : (!T.contains x) = true := by rw [hx, hP]; rfl
        rw [hc]
        simp
      have e2 : ((x :: t).enumFrom n).filter (fun p => !P p.1)
          = (n, x) :: ((t.enumFrom (n + 1)).filter (fun p => !P p.1)) := by
        rw [List.enumFrom_cons, List.filter_cons]
        have hc : (!P ((n, x) : Nat × Nat).1) = true := by
          show (!P n) = true
          rw [hP]
          rfl
        rw [hc]
        simp
      rw [e1, e2, List.map_cons, ih (n + 1) ht]
    | true =>
      have e1 : List.filter (fun v => !T.contains v) (x :: t)
          = List.filter (fun v => !T.contains v) t := by
        rw [List.filter_cons]
        have hc : (!T.contains x) = false := by rw [hx, hP]; rfl
        rw [hc]
        simp
      have e2 : ((x :: t).enumFrom n).filter (fun p => !P p.1)
          = (t.enumFrom (n + 1)).filter (fun p => !P p.1) := by
        rw [List.enumFrom_cons, List.filter_cons]
        have hc : (!P ((n, x) : Nat × Nat).1) = false := by
          show (!P n) = false
          rw [hP]
          rfl
        rw [hc]
        simp
      rw [e1, e2, ih (n + 1) ht]

/-- The snapshot of selected handles contains the entry at row k exactly
when k is selected (requires distinct handles and an in-bounds
selection). -/
theorem contains_selected_handles (s : AdapterState) (hl : s.rows.Nodup)
    (hsub : ∀ r ∈ s.selection, r < s.rows.length) (k : Nat) (hk : k < s.rows.length) :
    ((selectedRows s).map (fun r => s.rows.getD r 0)).contains (s.rows.get ⟨k, hk⟩)
      = decide (k ∈ s.selection) := by
  have hcont : ((selectedRows s).map (fun r => s.rows.getD r 0)).contains (s.rows.get ⟨k, hk⟩)
      = decide (s.rows.get ⟨k, hk⟩ ∈ (selectedRows s).map (fun r => s.rows.getD r 0)) :=
    List.elem_eq_mem _ _
  by_cases hmem : k ∈ s.selection
  · have hin : s.rows.get ⟨k, hk⟩ ∈ (selectedRows s).map (fun r => s.rows.getD r 0) := by
      apply List.mem_map.mpr
      refine ⟨k, ?_, ?_⟩
      · simp [selectedRows, List.mem_filter, List.mem_range, hmem, hk]
      · show s.rows.getD k 0 = s.rows.get ⟨k, hk⟩
        rw [List.getD_eq_getElem s.rows 0 hk, List.get_eq_getElem]
    rw [hcont, decide_eq_true hin, decide_eq_true hmem]
  · have hnot : s.rows.get ⟨k, hk⟩ ∉ (selectedRows s).map (fun r => s.rows.getD r 0) := by
      intro hin
      obtain ⟨r, hr, hEq⟩ := List.mem_map.mp hin
      have hrsel : r ∈ s.selection := by
        have h2 := List.mem_filter.mp hr
        simpa using h2.2
      have hrlt : r < s.rows.length := hsub r hrsel
      rw [List.getD_eq_getElem s.rows 0 hrlt, List.get_eq_getElem] at hEq
      have hrk : r = k := (List.Nodup.getElem_inj_iff hl).mp hEq
      exact hmem (hrk ▸ hrsel)
    rw [hcont, decide_eq_false hnot, decide_eq_false hmem]

/-- Claim C5 (amended): in every state whose sequence holds no duplicate
handle and whose selection indices are in bounds, removeSelectedParts
with a non-empty selection removes exactly the rows that were selected
at call time — the remaining sequence is the original with the selected
positions dropped, in order — and leaves the selection empty. -/
theorem removeSelectedParts_removes_selected (s : AdapterState)
    (hl : s.rows.Nodup) (hsub : ∀ r ∈ s.selection, r < s.rows.length)
    (hne : s.selection.Nonempty) :
    (removeSelectedParts s).rows
      = (s.rows.enum.filter (fun p => decide (p.1 ∉ s.selection))).map Prod.snd ∧
    (removeSelectedParts s).selection = ∅ := by
  have hrowsSel : (selectedRows s).isEmpty = false := by
    obtain ⟨a, ha⟩ := hne
    have hmem : a ∈ selectedRows s := by
      simp [selectedRows, List.mem_filter, List.mem_range, ha, hsub a ha]
    cases hsel : selectedRows s with
    | nil => rw [hsel] at hmem; simp at hmem
    | cons b u => simp [hsel]
  have heq : removeSelectedParts s
      = clearSelection (((selectedRows s).map (fun r => s.rows.getD r 0)).foldl
          (fun st nid => removePart st (Int.ofNat (st.rows.indexOf nid))) s) := by
    unfold removeSelectedParts
    rw [if_neg (by simp [hrowsSel])]
  constructor
  · rw [heq]
    show (((selectedRows s).map (fun r => s.rows.getD r 0)).foldl
        (fun st nid => removePart st (Int.ofNat (st.rows.indexOf nid))) s).rows = _
    rw [foldl_remove_rows, foldl_erase_eq_filter _ _ hl]
    rw [filter_not_contains_eq_enumFrom ((selectedRows s).map (fun r => s.rows.getD r 0))
        (fun k => decide (k ∈ s.selection)) 0 s.rows ?hcond]
    · have henum : s.rows.enum = s.rows.enumFrom 0 := rfl
      rw [henum]
      simp [decide_not]
    case hcond =>
      intro k hk
      rw [contains_selected_handles s hl hsub k hk]
      simp
  · rw [heq]
    rfl

/-- Claim C5, counterexample: in the reachable state obtained by loading
twice (master 0, excerpt 1; sequence [0, 1, 0, 1]) and selecting row 2,
removeSelectedParts re-resolves the snapshot handle 0 by its FIRST
occurrence and removes row 0 instead of the selected row 2: the result
is [1, 0, 1], not the [0, 1, 1] that removing exactly the selected row
would give. -/
theorem removeSelectedParts_counterexample :
    (removeSelectedParts (selectPart
        (load ⟨0, [1]⟩ (load ⟨0, [1]⟩ (initState [(0, masterData), (1, excerptData)] 5)))
        2)).rows = [1, 0, 1] ∧
    (((selectPart
        (load ⟨0, [1]⟩ (load ⟨0, [1]⟩ (initState [(0, masterData), (1, excerptData)] 5)))
        2).rows.enum.filter (fun p => decide (p.1 ∉ (selectPart
        (load ⟨0, [1]⟩ (load ⟨0, [1]⟩ (initState [(0, masterData), (1, excerptData)] 5)))
        2).selection))).map Prod.snd) = [0, 1, 1] ∧
    ([1, 0, 1] : List Nat) ≠ [0, 1, 1] := by
  exact ⟨by decide, by decide, by decide⟩

/-- Claim C5 witness: the amended statement on the sequence
[10, 11, 12, 13] (think [A, B, C, D]) with rows 1 and 3 (B and D)
selected: the result is [10, 12] (that is, [A, C]) with empty
selection. -/
theorem removeSelectedParts_removes_selected_witness :
    (removeSelectedParts ⟨[], [10, 11, 12, 13], {1, 3}, none, [], 20⟩).rows = [10, 12] ∧
    (removeSelectedParts ⟨[], [10, 11, 12, 13], {1, 3}, none, [], 20⟩).selection = ∅ := by
  have h := removeSelectedParts_removes_selected ⟨[], [10, 11, 12, 13], {1, 3}, none, [], 20⟩
    (by decide) (by decide) ⟨1, by decide⟩
  exact ⟨h.1.trans (by decide), h.2⟩
